import Mathlib

/-!
# Verification of the AIQuestionBankAutomator core

Shallow embedding of the repository's core logic:

* `src/scripts/utils.py` — the `GeminiAPI` class: credential loading,
  global cooldown, key rotation, per-key retry with exponential backoff.
* `src/scripts/run_pipeline.py` — `setup_database` / `run_generation_pipeline`:
  the resumable per-page generation pipeline over a SQLite store.
* `src/app.py` — the Flask process supervisor: `start_augmentation`,
  `stop_process`, `status`, lock (PID) file handling.

Machine time is modelled as a natural-number clock carried in the state;
`time.sleep(d)` advances the clock by `d`, and each external API attempt
advances it by an oracle-supplied duration.  External API behaviour is an
oracle `Nat → Outcome` indexed by a global attempt counter.
-/

/-! ## String containment, modelling Python's `"429" in error_str` -/

/-- Predicate `beginsWith pat s`: `pat` is an initial segment of `s`
(character lists). -/
def beginsWith : List Char → List Char → Bool
  | [], _ => true
  | _ :: _, [] => false
  | p :: ps, c :: cs => p == c && beginsWith ps cs

/-- Predicate `hasSub pat s`: `pat` occurs contiguously inside `s`. -/
def hasSub (pat : List Char) : List Char → Bool
  | [] => beginsWith pat []
  | c :: cs => beginsWith pat (c :: cs) || hasSub pat cs

/-- Python's `"429" in error_str` (substring containment). -/
def has429 (msg : String) : Bool :=
  hasSub "429".data msg.data

/-! ## `GeminiAPI` state (`src/scripts/utils.py`, lines 6–21) -/

/-- Outcome of one `model.generate_content` attempt, as observed by the
`try:` block of `get_response`:
* `ok t` — call returned, `response.parts` non-empty, `response.text = t`;
* `blocked` — call returned but `response.parts` is empty (safety block);
* `exn m` — the attempt raised an exception whose `str` is `m`. -/
inductive Outcome where
  | ok (t : String)
  | blocked
  | exn (m : String)
  deriving DecidableEq, Repr

/-- State of the `GeminiAPI` object from `src/scripts/utils.py`, together
with the model clock `now` and the oracle cursor `tick` (the number of
API attempts dispatched so far, used to index the outcome oracle). -/
structure ApiState where
  /-- Field `self.keys` — credential pool. -/
  keys : List String
  /-- Field `self.current_key_index`. -/
  current_key_index : Nat
  /-- Field `self.cooldown_period` (13 in the source). -/
  cooldown_period : Nat
  /-- Field `self.last_call_time`. -/
  last_call_time : Nat
  /-- model wall clock (`time.time()`). -/
  now : Nat
  /-- oracle cursor: attempts dispatched so far (model bookkeeping). -/
  tick : Nat
  deriving DecidableEq, Repr

/-- Credential loading from `GeminiAPI.__init__` (utils.py line 10):
`[os.getenv(f"GEMINI_API_KEY_{i}") for i in range(1, 5) if os.getenv(...)]`,
where a variable counts only when set and non-empty (Python truthiness). -/
def loadKeys (env : Nat → Option String) : List String :=
  (((List.range' 1 4).filterMap env).filter (fun k => k != ""))

/-- Constructor `GeminiAPI.__init__` (utils.py lines 8–21): returns the constructed
state, or the `ValueError` message when no credential is found.  `t0` is
the wall-clock time at construction.  No API attempt is made and no state
escapes on the error path. -/
def GeminiAPI.init (env : Nat → Option String) (t0 : Nat) :
    Except String ApiState :=
  let keys := loadKeys env
  if keys.isEmpty then
    .error "No GEMINI_API_KEY found in .env file. Please check your configuration."
  else
    .ok { keys := keys, current_key_index := 0, cooldown_period := 13,
          last_call_time := 0, now := t0, tick := 0 }

/-! ## `GeminiAPI.get_response` (utils.py lines 23–84) -/

/-- One attempt in the trace: the key index used (`key_index_for_log`),
the time at which `generate_content` was dispatched, and its outcome. -/
structure Att where
  key : Nat
  dispatch : Nat
  out : Outcome
  deriving DecidableEq, Repr

/-- Result of the inner retry loop (`for retry_attempt in range(3)`):
`done t` — `return response.text`; `next` — `break` to the next key;
`spent` — the three retries were used up (all 429), fall through. -/
inductive InnerRes where
  | done (t : String)
  | next
  | spent
  deriving DecidableEq, Repr

/-- The inner retry loop of `get_response` (utils.py lines 44–81), for one
key.  `att`/`dur` are the outcome/duration oracles, `waitT` the current
backoff (`wait_time`), `fuel` the retries remaining (starts at
`max_retries_per_key = 3`).  Faithful points:
* the attempt dispatches at `s.now` and costs `dur s.tick`;
* on a returned response the key index rotates (line 60) *before* the
  `response.parts` check, so both `ok` and `blocked` rotate;
* a `429` exception sleeps `waitT`, doubles it, re-stamps
  `last_call_time` (lines 73–76) and retries the same key;
* any other exception rotates and breaks (lines 78–81). -/
def runRetries (att : Nat → Outcome) (dur : Nat → Nat) :
    ApiState → Nat → Nat → InnerRes × ApiState × List Att
  | s, _, 0 => (.spent, s, [])
  | s, waitT, fuel + 1 =>
    let o := att s.tick
    let rec0 : Att := ⟨s.current_key_index, s.now, o⟩
    let s1 : ApiState := { s with now := s.now + dur s.tick, tick := s.tick + 1 }
    match o with
    | .ok t =>
      (.done t,
       { s1 with current_key_index := (s1.current_key_index + 1) % s1.keys.length },
       [rec0])
    | .blocked =>
      (.next,
       { s1 with current_key_index := (s1.current_key_index + 1) % s1.keys.length },
       [rec0])
    | .exn m =>
      if has429 m then
        let s2 : ApiState := { s1 with now := s1.now + waitT }
        let s3 : ApiState := { s2 with last_call_time := s2.now }
        let r := runRetries att dur s3 (waitT * 2) fuel
        (r.1, r.2.1, rec0 :: r.2.2)
      else
        (.next,
         { s1 with current_key_index := (s1.current_key_index + 1) % s1.keys.length },
         [rec0])

/-- The outer key loop of `get_response` (`for _ in range(len(self.keys))`,
utils.py lines 36–81).  Each pass stamps `self.last_call_time = time.time()`
(line 41) and runs the retry loop with `wait_time = 5`,
`max_retries_per_key = 3`.  On `next`/`spent` the loop continues; note that
`spent` (three 429s) does *not* rotate the key. -/
def runKeys (att : Nat → Outcome) (dur : Nat → Nat) :
    ApiState → Nat → Option String × ApiState × List Att
  | s, 0 => (none, s, [])
  | s, fuel + 1 =>
    let s0 : ApiState := { s with last_call_time := s.now }
    let r := runRetries att dur s0 5 3
    match r.1 with
    | .done t => (some t, r.2.1, r.2.2)
    | .next =>
      let r2 := runKeys att dur r.2.1 fuel
      (r2.1, r2.2.1, r.2.2 ++ r2.2.2)
    | .spent =>
      let r2 := runKeys att dur r.2.1 fuel
      (r2.1, r2.2.1, r.2.2 ++ r2.2.2)

/-- Method `GeminiAPI.get_response` (utils.py lines 23–84).  The cooldown block
(lines 26–30) runs once, at the start of the call: if the elapsed time
since `last_call_time` is below `cooldown_period`, sleep the remainder.
Then the key loop runs for `len(self.keys)` passes; if it falls through,
the method returns `None` (line 84). -/
def get_response (att : Nat → Outcome) (dur : Nat → Nat) (s : ApiState) :
    Option String × ApiState × List Att :=
  let elapsed := s.now - s.last_call_time
  let s0 : ApiState :=
    if elapsed < s.cooldown_period then
      { s with now := s.now + (s.cooldown_period - elapsed) }
    else s
  runKeys att dur s0 s.keys.length

/-! ## Pipeline data model (`src/scripts/run_pipeline.py`) -/

/-- One object of the JSON list produced by the end-to-end prompt; only the
fields the inserts read are modelled (lines 204–213). -/
structure QData where
  original : String
  transformed : String
  deriving DecidableEq, Repr

/-- What `run_generation_pipeline` observes for one page (lines 180–219):
* `noText` — `page_text` falsy or stripped length < 150 (line 185): no API call;
* `noResponse` — `gemini_manager.get_response` returned `None` (line 192);
* `noBrackets` — response has no `[` or no `]` (line 200 else-branch);
* `decodeError` — `json.loads` raised `JSONDecodeError` (line 217);
* `questions qs` — the decoded list (possibly empty). -/
inductive PageResult where
  | noText
  | noResponse
  | noBrackets
  | decodeError
  | questions (qs : List QData)
  deriving DecidableEq, Repr

/-- A row of `jee_questions` (only the columns the pipeline logic reads:
the resume query uses `source_file` and `source_page`).  The implicit
SQLite rowid of the row at position `i` of the list is `i + 1`
(`AUTOINCREMENT` from 1, as in `setup_database`, lines 96–101). -/
structure ParentRow where
  question_text : String
  source_file : String
  source_page : Nat
  deriving DecidableEq, Repr

/-- A row of `generated_questions` (lines 102–108): `original_jee_id` is
the `cursor.lastrowid` of the parent insert (line 209). -/
structure VariantRow where
  original_jee_id : Nat
  question_text : String
  deriving DecidableEq, Repr

/-- The two tables created by `setup_database` that the generation
pipeline writes. -/
structure DB where
  jee : List ParentRow
  gen : List VariantRow
  deriving DecidableEq, Repr

/-- The pair of inserts for one extracted question (lines 205–213): insert
the parent, read `cursor.lastrowid`, insert the variant pointing at it. -/
def insertQ (f : String) (p : Nat) (db : DB) (q : QData) : DB :=
  let jee' := db.jee ++ [⟨q.original, f, p⟩]
  { jee := jee', gen := db.gen ++ [⟨jee'.length, q.transformed⟩] }

/-- The body of the page loop (lines 183–219) for one page: the resulting
database and the number of API calls made (0 or 1).  Only a decoded
non-empty list inserts rows. -/
def processPage (f : String) (p : Nat) (db : DB) : PageResult → DB × Nat
  | .noText => (db, 0)
  | .noResponse => (db, 1)
  | .noBrackets => (db, 1)
  | .decodeError => (db, 1)
  | .questions qs => (if qs.isEmpty then db else qs.foldl (insertQ f p) db, 1)

/-- Resume query `SELECT MAX(source_page) FROM jee_questions WHERE source_file = ?`
with `(cursor.fetchone() or [0])[0] or 0` (lines 171–172): 0 when the
document has no rows. -/
def maxSourcePage (db : DB) (f : String) : Nat :=
  (db.jee.filter (fun r => r.source_file == f)).foldl
    (fun m r => max m r.source_page) 0

/-- The pages a run visits for document `f` with `numPages` pages
(lines 174–181): none when `last_processed_page >= num_pages`, otherwise
pages `last+1 .. numPages` (the loop `range(last_processed_page,
num_pages)` with `page_num = i + 1`). -/
def pagesToProcess (db : DB) (f : String) (numPages : Nat) : List Nat :=
  let last := maxSourcePage db f
  if numPages ≤ last then [] else List.range' (last + 1) (numPages - last)

/-- The per-document body of `run_generation_pipeline`
(lines 166–219) for one document `f` of `numPages` pages, where `doc p`
is what the run observes on page `p`: the final database and the total
number of API calls. -/
def run_generation_pipeline (db : DB) (f : String) (doc : Nat → PageResult)
    (numPages : Nat) : DB × Nat :=
  (pagesToProcess db f numPages).foldl
    (fun acc p =>
      let r := processPage f p acc.1 (doc p)
      (r.1, acc.2 + r.2))
    (db, 0)

/-! ## Transaction-level view of a run (for crash semantics)

`conn.commit()` runs once per inserting page (line 214); inserts
accumulate inside SQLite's implicit transaction and become visible only
at the commit.  A run is therefore flattened to a list of low-level
operations; killing the process after `k` operations leaves visible
exactly the effects up to the last `commit` among the first `k`. -/

/-- A low-level store operation of the run: a parent insert, a variant
insert (its `original_jee_id` is resolved against the pending table
state, as `cursor.lastrowid` is), or `conn.commit()`. -/
inductive Op where
  | insP (r : ParentRow)
  | insV (transformed : String)
  | commit
  deriving DecidableEq, Repr

/-- Durable (committed) and pending (inside the open transaction) views
of the store. -/
structure TxState where
  committed : DB
  pending : DB
  deriving DecidableEq, Repr

/-- SQLite semantics of one operation: inserts touch only the pending
view; `commit` makes the pending view durable. -/
def applyOp (ts : TxState) : Op → TxState
  | .insP r => { ts with pending := { ts.pending with jee := ts.pending.jee ++ [r] } }
  | .insV t =>
    { ts with pending :=
        { ts.pending with gen := ts.pending.gen ++ [⟨ts.pending.jee.length, t⟩] } }
  | .commit => { ts with committed := ts.pending }

/-- The operations the page body issues for one page (lines 197–214):
an insert pair per decoded question, then one `conn.commit()` — and
nothing at all for pages that insert nothing. -/
def opsOfPage (f : String) (p : Nat) : PageResult → List Op
  | .questions qs =>
    if qs.isEmpty then []
    else (qs.flatMap fun q => [.insP ⟨q.original, f, p⟩, .insV q.transformed]) ++ [.commit]
  | _ => []

/-- All store operations of one document run, in program order. -/
def opsOfRun (db : DB) (f : String) (doc : Nat → PageResult) (numPages : Nat) :
    List Op :=
  (pagesToProcess db f numPages).flatMap (fun p => opsOfPage f p (doc p))

/-- The database visible after the process is killed `k` operations into
a run that started from durable state `db`. -/
def crashView (db : DB) (ops : List Op) (k : Nat) : DB :=
  ((ops.take k).foldl applyOp ⟨db, db⟩).committed

/-- Database-only page step (the `.1` of `processPage`). -/
def pageStep (f : String) (doc : Nat → PageResult) (db : DB) (p : Nat) : DB :=
  (processPage f p db (doc p)).1

/-! ## Process supervisor (`src/app.py`) -/

/-- The in-memory `process_handle`: the process-group id recorded for it
(`os.getpgid(process_handle.pid)`) and whether `poll()` returns `None`
(process still alive). -/
structure Handle where
  pgid : Nat
  alive : Bool
  deriving DecidableEq, Repr

/-- Supervisor-visible state: the global `process_handle` and the content
of the PID (lock) file — `none` when `process.pid` does not exist. -/
structure SupState where
  handle : Option Handle
  pidFile : Option Nat
  deriving DecidableEq, Repr

/-- Result of `start_augmentation`. -/
inductive StartResult where
  | alreadyRunning
  | started
  deriving DecidableEq, Repr

/-- Route `start_augmentation` (app.py lines 84–104).  The guard is
`process_handle and process_handle.poll() is None or os.path.exists(PID_FILE)`,
i.e. (handle present and alive) ∨ lock file present.  On the happy path it
spawns the pipeline as a new process group (`preexec_fn=os.setsid`) whose
group id is the oracle `newPgid`, and writes that id into the PID file. -/
def start_augmentation (s : SupState) (newPgid : Nat) : SupState × StartResult :=
  if (match s.handle with | some h => h.alive | none => false) || s.pidFile.isSome then
    (s, .alreadyRunning)
  else
    ({ handle := some ⟨newPgid, true⟩, pidFile := some newPgid }, .started)

/-- Route `stop_process` (app.py lines 106–118): when the in-memory handle is
present and alive, `os.killpg(pgid, SIGTERM)` is sent, the handle waited
on and cleared; otherwise the handle is left as is and *no signal is
sent*.  The PID file is removed if it exists, unconditionally.  The route
always returns the success JSON, modelled by the `Bool` component
(always `true`).  The second component lists the process-group ids that
received SIGTERM. -/
def stop_process (s : SupState) : SupState × List Nat × Bool :=
  match s.handle with
  | some h =>
    if h.alive then ({ handle := none, pidFile := none }, [h.pgid], true)
    else ({ handle := some h, pidFile := none }, [], true)
  | none => ({ handle := none, pidFile := none }, [], true)

/-- Route `status` (app.py lines 121–131): `running` is the existence of the
PID file. -/
def statusRunning (s : SupState) : Bool :=
  s.pidFile.isSome

/-! # Theorems -/

/-! ## C7 / C10 — supervisor lock -/

/-- **C7** Supervisor lock correctness: `stop_process` always returns
success and always leaves the PID (lock) file absent — in particular when
nothing is running, so `stop` is idempotent; `start_augmentation` refuses
to spawn while the lock file exists or the in-memory handle is alive; and
a second `start_augmentation` right after a successful one returns the
already-running error and leaves the state unchanged (no second spawn). -/
theorem supervisor_lock_correct (s : SupState) (n : Nat) :
    ((stop_process s).2.2 = true ∧ (stop_process s).1.pidFile = none) ∧
    ((s.pidFile.isSome = true ∨ (∃ h, s.handle = some h ∧ h.alive = true)) →
      start_augmentation s n = (s, .alreadyRunning)) ∧
    (∀ s' n₂, start_augmentation s n = (s', .started) →
      start_augmentation s' n₂ = (s', .alreadyRunning)) := by
  refine ⟨⟨?_, ?_⟩, ?_, ?_⟩
  · cases h : s.handle with
    | none => simp [stop_process, h]
    | some hd => by_cases ha : hd.alive <;> simp [stop_process, h, ha]
  · cases h : s.handle with
    | none => simp [stop_process, h]
    | some hd => by_cases ha : hd.alive <;> simp [stop_process, h, ha]
  · rintro (hp | ⟨hd, hh, ha⟩)
    · simp [start_augmentation, hp]
    · simp [start_augmentation, hh, ha]
  · intro s' n₂ hstart
    unfold start_augmentation at hstart ⊢
    by_cases hc : ((match s.handle with | some h => h.alive | none => false) || s.pidFile.isSome) = true
    · simp [hc] at hstart
    · simp [hc] at hstart
      rw [← hstart]
      simp

/-- Witness for C7 at the concrete idle state (no handle, no lock file):
stopping succeeds with the lock absent, and a second start after a
successful start is refused without a new spawn. -/
theorem supervisor_lock_correct_witness :
    ((stop_process ⟨none, none⟩).2.2 = true ∧
      (stop_process ⟨none, none⟩).1.pidFile = none) ∧
    start_augmentation ⟨some ⟨7, true⟩, some 7⟩ 9
      = (⟨some ⟨7, true⟩, some 7⟩, .alreadyRunning) := by
  refine ⟨(supervisor_lock_correct ⟨none, none⟩ 7).1, ?_⟩
  exact (supervisor_lock_correct ⟨none, none⟩ 7).2.2 ⟨some ⟨7, true⟩, some 7⟩ 9 (by decide)

/-- **C10** Stop without an in-memory handle sends no signal: when the
handle is absent or dead but the lock file records a process-group id,
`stop_process` removes the lock file and reports success while sending
SIGTERM to nobody, and `status` afterwards reports not-running — even
though the recorded process group was never signalled. -/
theorem stop_without_handle_sends_no_signal (s : SupState) (p : Nat)
    (hdead : s.handle = none ∨ ∃ h, s.handle = some h ∧ h.alive = false)
    (_hlock : s.pidFile = some p) :
    (stop_process s).2.1 = [] ∧
    (stop_process s).2.2 = true ∧
    (stop_process s).1.pidFile = none ∧
    statusRunning (stop_process s).1 = false := by
  rcases hdead with h | ⟨hd, hh, ha⟩
  · simp [stop_process, h, statusRunning]
  · simp [stop_process, hh, ha, statusRunning]

/-- Witness for C10: a supervisor that lost its handle but still sees the
lock file containing group id 42. -/
theorem stop_without_handle_witness :
    (stop_process ⟨none, some 42⟩).2.1 = [] ∧
    (stop_process ⟨none, some 42⟩).2.2 = true ∧
    (stop_process ⟨none, some 42⟩).1.pidFile = none ∧
    statusRunning (stop_process ⟨none, some 42⟩).1 = false :=
  stop_without_handle_sends_no_signal ⟨none, some 42⟩ 42 (Or.inl rfl) rfl

/-! ## C8 — fail-fast on empty credential pool -/

/-- Characterisation of the loaded pool: a credential is loaded exactly
when some `GEMINI_API_KEY_i`, `1 ≤ i ≤ 4`, is set to a non-empty string. -/
theorem loadKeys_eq_nil_iff (env : Nat → Option String) :
    loadKeys env = [] ↔ ∀ i, 1 ≤ i → i ≤ 4 → ∀ k, env i = some k → k = "" := by
  unfold loadKeys
  rw [List.filter_eq_nil_iff]
  constructor
  · intro h i h1 h4 k hk
    by_contra hne
    have hmem : k ∈ (List.range' 1 4).filterMap env := by
      rw [List.mem_filterMap]
      refine ⟨i, ?_, hk⟩
      have : List.range' 1 4 = [1, 2, 3, 4] := rfl
      rw [this]
      interval_cases i <;> simp
    have := h k hmem
    simp at this
    exact hne this
  · intro h k hmem
    rw [List.mem_filterMap] at hmem
    obtain ⟨i, hi, hk⟩ := hmem
    have hrange : 1 ≤ i ∧ i ≤ 4 := by
      have : List.range' 1 4 = [1, 2, 3, 4] := rfl
      rw [this] at hi
      fin_cases hi <;> omega
    have := h i hrange.1 hrange.2 k hk
    simp [this]

/-- **C8** Fail-fast on empty credential pool: with no credential set (or
only empty-string values) among `GEMINI_API_KEY_1..4`, constructing the
client yields the `ValueError` immediately — no state is produced and no
API attempt is made (the constructor consumes no oracle); with at least
one non-empty credential present, construction succeeds, with the loaded
pool, rotation cursor 0 and cooldown clock 0. -/
theorem init_fail_fast (env : Nat → Option String) (t0 : Nat) :
    ((∀ i, 1 ≤ i → i ≤ 4 → ∀ k, env i = some k → k = "") →
      GeminiAPI.init env t0 =
        .error "No GEMINI_API_KEY found in .env file. Please check your configuration.") ∧
    ((∃ i k, 1 ≤ i ∧ i ≤ 4 ∧ env i = some k ∧ k ≠ "") →
      GeminiAPI.init env t0 =
        .ok { keys := loadKeys env, current_key_index := 0, cooldown_period := 13,
              last_call_time := 0, now := t0, tick := 0 } ∧
      loadKeys env ≠ []) := by
  constructor
  · intro h
    have hnil : loadKeys env = [] := (loadKeys_eq_nil_iff env).2 h
    unfold GeminiAPI.init
    simp [hnil]
  · rintro ⟨i, k, h1, h4, hk, hne⟩
    have hnenil : loadKeys env ≠ [] := by
      intro hnil
      exact hne ((loadKeys_eq_nil_iff env).1 hnil i h1 h4 k hk)
    unfold GeminiAPI.init
    simp [List.isEmpty_iff, hnenil]

/-- Witness for C8: the empty environment fails with the configuration
error; an environment with `GEMINI_API_KEY_1 = "sk-abc"` succeeds. -/
theorem init_fail_fast_witness :
    GeminiAPI.init (fun _ => none) 0 =
      .error "No GEMINI_API_KEY found in .env file. Please check your configuration." ∧
    GeminiAPI.init (fun i => if i = 1 then some "sk-abc" else none) 0 =
      .ok { keys := loadKeys (fun i => if i = 1 then some "sk-abc" else none),
            current_key_index := 0, cooldown_period := 13,
            last_call_time := 0, now := 0, tick := 0 } :=
  ⟨(init_fail_fast (fun _ => none) 0).1 (fun _ _ _ _ h => by cases h),
   ((init_fail_fast (fun i => if i = 1 then some "sk-abc" else none) 0).2
     ⟨1, "sk-abc", le_refl 1, by omega, rfl, by decide⟩).1⟩

/-! ## C3 — rotation coverage on total terminal failure -/

/-- An attempt outcome that abandons the current credential for good
("fails terminally"): a blocked (empty-`parts`) response, or an exception
whose text does not contain `"429"`. -/
def Outcome.Terminal : Outcome → Prop
  | .ok _ => False
  | .blocked => True
  | .exn m => has429 m = false

/-- Under a terminal outcome, one pass of the retry loop makes exactly one
attempt, rotates the cursor, and breaks to the next key. -/
theorem runRetries_terminal (att : Nat → Outcome) (dur : Nat → Nat)
    (s : ApiState) (w f : Nat) (h : (att s.tick).Terminal) :
    runRetries att dur s w (f + 1) =
      (.next,
       { s with now := s.now + dur s.tick, tick := s.tick + 1,
                current_key_index := (s.current_key_index + 1) % s.keys.length },
       [⟨s.current_key_index, s.now, att s.tick⟩]) := by
  cases ho : att s.tick with
  | ok t => rw [ho] at h; exact absurd h (by simp [Outcome.Terminal])
  | blocked => simp [runRetries, ho]
  | exn m =>
    rw [ho] at h
    have h429 : has429 m = false := h
    simp [runRetries, ho, h429]

/-- Under all-terminal outcomes, `fuel` passes of the key loop return
`None`, attempt the keys at consecutive rotation positions (one attempt
per pass), and leave the pool unchanged. -/
theorem runKeys_all_terminal (att : Nat → Outcome) (dur : Nat → Nat)
    (N : Nat) (hN : 0 < N) (hterm : ∀ i, (att i).Terminal) :
    ∀ fuel s, s.keys.length = N → s.current_key_index < N →
      (runKeys att dur s fuel).1 = none ∧
      ((runKeys att dur s fuel).2.2.map (fun a => a.key))
        = (List.range fuel).map (fun j => (s.current_key_index + j) % N) ∧
      (runKeys att dur s fuel).2.1.keys = s.keys := by
  intro fuel
  induction fuel with
  | zero => intro s _ _; simp [runKeys]
  | succ f ih =>
    intro s hs hidx
    have hstep := runRetries_terminal att dur
      { s with last_call_time := s.now } 5 2 (hterm _)
    rw [runKeys, hstep]
    set s' : ApiState :=
      { s with last_call_time := s.now, now := s.now + dur s.tick,
               tick := s.tick + 1,
               current_key_index := (s.current_key_index + 1) % s.keys.length }
      with hs'
    have hs'keys : s'.keys = s.keys := rfl
    have hs'len : s'.keys.length = N := by rw [hs'keys, hs]
    have hs'idx : s'.current_key_index < N := by
      simp only [hs', hs]
      exact Nat.mod_lt _ hN
    obtain ⟨h1, h2, h3⟩ := ih s' hs'len hs'idx
    refine ⟨h1, ?_, by rw [h3, hs'keys]⟩
    have hhead : List.map (fun a => a.key)
        ([({ key := s.current_key_index, dispatch := s.now, out := att s.tick } : Att)]
          ++ (runKeys att dur s' f).2.2)
        = s.current_key_index :: List.map (fun a => a.key) (runKeys att dur s' f).2.2 := by
      simp
    have hh : (s.current_key_index + 0) % N = s.current_key_index := by
      rw [Nat.add_zero, Nat.mod_eq_of_lt hidx]
    rw [hhead, h2, List.range_succ_eq_map, List.map_cons, List.map_map, hh]
    congr 1
    apply List.map_congr_left
    intro j _
    simp only [Function.comp_apply, hs', hs]
    rw [Nat.mod_add_mod]
    congr 1
    omega

/-- Rotation sequences starting inside the pool hit each index exactly
once over one full cycle. -/
theorem count_rotation (N i₀ : Nat) (hN : 0 < N) (hi : i₀ < N)
    (k : Nat) (hk : k < N) :
    ((List.range N).map (fun j => (i₀ + j) % N)).count k = 1 := by
  have hnodup : ((List.range N).map (fun j => (i₀ + j) % N)).Nodup := by
    refine List.Nodup.map_on ?_ (List.nodup_range N)
    intro j₁ h₁ j₂ h₂ heq
    rw [List.mem_range] at h₁ h₂
    have hmod : j₁ % N = j₂ % N := Nat.ModEq.add_left_cancel' i₀ heq
    rwa [Nat.mod_eq_of_lt h₁, Nat.mod_eq_of_lt h₂] at hmod
  have hmem : k ∈ (List.range N).map (fun j => (i₀ + j) % N) := by
    rw [List.mem_map]
    refine ⟨(k + N - i₀) % N, List.mem_range.2 (Nat.mod_lt _ hN), ?_⟩
    have h1 : i₀ + (k + N - i₀) % N ≡ i₀ + (k + N - i₀) [MOD N] :=
      Nat.ModEq.add_left i₀ (Nat.mod_modEq _ N)
    have h2 : i₀ + (k + N - i₀) = k + N := by omega
    have h3 : (k + N) % N = k := by
      rw [Nat.add_mod_right, Nat.mod_eq_of_lt hk]
    calc (i₀ + (k + N - i₀) % N) % N = (i₀ + (k + N - i₀)) % N := h1
      _ = (k + N) % N := by rw [h2]
      _ = k := h3
  exact List.count_eq_one_of_mem hnodup hmem

/-- Factoring of `get_response`: the cooldown block only moves the clock
forward, after which the key loop runs with fuel `len(self.keys)`. -/
theorem get_response_as_runKeys (att : Nat → Outcome) (dur : Nat → Nat)
    (s : ApiState) :
    ∃ s0 : ApiState, get_response att dur s = runKeys att dur s0 s.keys.length ∧
      s0.keys = s.keys ∧ s0.current_key_index = s.current_key_index ∧
      s0.last_call_time = s.last_call_time ∧
      s0.cooldown_period = s.cooldown_period ∧
      s0.tick = s.tick ∧ s.now ≤ s0.now ∧
      (s.last_call_time ≤ s.now →
        s.last_call_time + s.cooldown_period ≤ s0.now) := by
  refine ⟨if s.now - s.last_call_time < s.cooldown_period then
      { s with now := s.now + (s.cooldown_period - (s.now - s.last_call_time)) }
    else s, rfl, ?_, ?_, ?_, ?_, ?_, ?_, ?_⟩
  all_goals by_cases hc : s.now - s.last_call_time < s.cooldown_period <;>
    simp [hc] <;> omega

/-- **C3** Rotation coverage on total failure: when every attempt fails
terminally (blocked response or non-429 exception), `get_response` makes
exactly `N = len(keys)` attempts — never more — visiting the rotation
positions consecutively from the current cursor, so each of the `N`
credentials is attempted exactly once, and the call returns `None`
(exhaustion). -/
theorem rotation_coverage_on_total_failure (att : Nat → Outcome)
    (dur : Nat → Nat) (s : ApiState) (N : Nat)
    (hN : s.keys.length = N) (hNpos : 0 < N)
    (hidx : s.current_key_index < N)
    (hterm : ∀ i, (att i).Terminal) :
    (get_response att dur s).1 = none ∧
    (get_response att dur s).2.2.length = N ∧
    ((get_response att dur s).2.2.map (fun a => a.key))
      = (List.range N).map (fun j => (s.current_key_index + j) % N) ∧
    ∀ k, k < N →
      ((get_response att dur s).2.2.map (fun a => a.key)).count k = 1 := by
  obtain ⟨s0, heq, hkeys, hidx0, -, -, -, -, -⟩ := get_response_as_runKeys att dur s
  have hlen0 : s0.keys.length = N := by rw [hkeys, hN]
  have hidx0lt : s0.current_key_index < N := by rw [hidx0]; exact hidx
  obtain ⟨h1, h2, h3⟩ :=
    runKeys_all_terminal att dur N hNpos hterm N s0 hlen0 hidx0lt
  rw [hidx0] at h2
  rw [heq, hN]
  refine ⟨h1, ?_, h2, ?_⟩
  · have := congrArg List.length h2
    simpa using this
  · intro k hk
    rw [h2]
    exact count_rotation N s.current_key_index hNpos hidx k hk

/-- Concrete oracle for the C3 witness: every attempt raises a non-429
exception. -/
def attC3 : Nat → Outcome := fun _ => .exn "boom"

/-- Concrete two-credential client state for the client witnesses. -/
def sW3 : ApiState :=
  { keys := ["a", "b"], current_key_index := 0, cooldown_period := 13,
    last_call_time := 0, now := 0, tick := 0 }

/-- Witness for C3: with two credentials and a permanently failing API,
the call makes exactly two attempts, one per credential, and returns
`None`. -/
theorem rotation_coverage_witness :
    (get_response attC3 (fun _ => 0) sW3).1 = none ∧
    (get_response attC3 (fun _ => 0) sW3).2.2.length = 2 ∧
    ((get_response attC3 (fun _ => 0) sW3).2.2.map (fun a => a.key))
      = (List.range 2).map (fun j => (0 + j) % 2) ∧
    ∀ k, k < 2 →
      (((get_response attC3 (fun _ => 0) sW3).2.2.map (fun a => a.key)).count k
        = 1) :=
  rotation_coverage_on_total_failure attC3 (fun _ => 0) sW3 2 rfl (by decide)
    (by decide) (fun _ => (by decide : has429 "boom" = false))

/-! ## C9 — client totality: every exception is caught -/

/-- When every attempt raises an exception, the retry loop never
produces a `done` result. -/
theorem runRetries_result_of_exn (att : Nat → Outcome) (dur : Nat → Nat)
    (hexn : ∀ i, ∃ m, att i = .exn m) :
    ∀ fuel s w, (runRetries att dur s w fuel).1 = .next ∨
      (runRetries att dur s w fuel).1 = .spent := by
  intro fuel
  induction fuel with
  | zero => intro s w; right; rfl
  | succ f ih =>
    intro s w
    obtain ⟨m, hm⟩ := hexn s.tick
    by_cases h4 : has429 m
    · simp only [runRetries, hm, h4, if_true]
      exact ih _ _
    · left
      simp [runRetries, hm, h4]

/-- When every attempt raises an exception, the key loop returns `None`
normally. -/
theorem runKeys_none_of_exn (att : Nat → Outcome) (dur : Nat → Nat)
    (hexn : ∀ i, ∃ m, att i = .exn m) :
    ∀ fuel s, (runKeys att dur s fuel).1 = none := by
  intro fuel
  induction fuel with
  | zero => intro s; rfl
  | succ f ih =>
    intro s
    rcases runRetries_result_of_exn att dur hexn 3
        { s with last_call_time := s.now } 5 with h | h <;>
      · simp only [runKeys, h]
        exact ih _

/-- A `done` result of the retry loop always stems from a contentful
successful attempt recorded in the trace. -/
theorem runRetries_done_mem (att : Nat → Outcome) (dur : Nat → Nat) :
    ∀ fuel s w t, (runRetries att dur s w fuel).1 = .done t →
      ∃ a ∈ (runRetries att dur s w fuel).2.2, a.out = .ok t := by
  intro fuel
  induction fuel with
  | zero => intro s w t h; simp [runRetries] at h
  | succ f ih =>
    intro s w t h
    cases ho : att s.tick with
    | ok t' =>
      simp only [runRetries, ho] at h ⊢
      obtain rfl : t' = t := by injection h
      exact ⟨_, List.mem_singleton_self _, rfl⟩
    | blocked => simp [runRetries, ho] at h
    | exn m =>
      by_cases h4 : has429 m
      · simp only [runRetries, ho, h4, if_true] at h ⊢
        obtain ⟨a, ha, hout⟩ := ih _ _ t h
        exact ⟨a, List.mem_cons_of_mem _ ha, hout⟩
      · simp [runRetries, ho, h4] at h

/-- A `Some` result of the key loop always stems from a contentful
successful attempt recorded in the trace. -/
theorem runKeys_some_mem (att : Nat → Outcome) (dur : Nat → Nat) :
    ∀ fuel s t, (runKeys att dur s fuel).1 = some t →
      ∃ a ∈ (runKeys att dur s fuel).2.2, a.out = .ok t := by
  intro fuel
  induction fuel with
  | zero => intro s t h; simp [runKeys] at h
  | succ f ih =>
    intro s t h
    simp only [runKeys] at h ⊢
    cases hr1 : (runRetries att dur { s with last_call_time := s.now } 5 3).1 with
    | done t' =>
      rw [hr1] at h
      simp only at h ⊢
      obtain rfl : t' = t := by injection h
      exact runRetries_done_mem att dur 3 _ 5 _ hr1
    | next =>
      rw [hr1] at h
      simp only at h ⊢
      obtain ⟨a, ha, hout⟩ := ih _ t h
      exact ⟨a, List.mem_append_right _ ha, hout⟩
    | spent =>
      rw [hr1] at h
      simp only at h ⊢
      obtain ⟨a, ha, hout⟩ := ih _ t h
      exact ⟨a, List.mem_append_right _ ha, hout⟩

/-- **C9** Client totality: `get_response` never propagates an exception.
Even when every attempt raises, the method returns `None` through the
normal exhaustion path; and whenever it returns a text, that text is the
`response.text` of a recorded successful attempt — so the method's only
outcomes are a text or `None`. -/
theorem client_totality (att : Nat → Outcome) (dur : Nat → Nat)
    (s : ApiState) :
    ((∀ i, ∃ m, att i = .exn m) → (get_response att dur s).1 = none) ∧
    (∀ t, (get_response att dur s).1 = some t →
      ∃ a ∈ (get_response att dur s).2.2, a.out = .ok t) := by
  obtain ⟨s0, heq, -, -, -, -, -, -, -⟩ := get_response_as_runKeys att dur s
  rw [heq]
  exact ⟨fun hexn => runKeys_none_of_exn att dur hexn _ s0,
         fun t h => runKeys_some_mem att dur _ s0 t h⟩

/-- Witness for C9: with an API that raises on every attempt, the call
returns `None` rather than propagating. -/
theorem client_totality_witness :
    (get_response (fun _ => .exn "bang") (fun _ => 0) sW3).1 = none :=
  (client_totality (fun _ => .exn "bang") (fun _ => 0) sW3).1
    (fun _ => ⟨"bang", rfl⟩)

/-! ## C6 — failure classification -/

/-- Trace-level reading of the spec's transient discipline for server
errors: an attempt that failed with the 5xx-class signal
`"500 Internal Server Error"` is followed, if by anything, by a retry on
the same credential. -/
abbrev ServerErrRetriedSameKey (tr : List Att) : Prop :=
  ∀ ab ∈ tr.zip tr.tail,
    ab.1.out = .exn "500 Internal Server Error" → ab.2.key = ab.1.key

/-- Oracle for the C6 counterexample: the first attempt raises a
server-side 500, the second succeeds. -/
def attC6 : Nat → Outcome := fun i =>
  if i = 0 then .exn "500 Internal Server Error" else .ok "recovered"

/-- Client state for the C6/C4 counterexamples: two credentials, cooldown
13, clock at 100 with the cooldown long expired. -/
def sC6 : ApiState :=
  { keys := ["k1", "k2"], current_key_index := 0, cooldown_period := 13,
    last_call_time := 0, now := 100, tick := 0 }

/-- **C6 (counterexample)** The code classifies only messages containing
`"429"` as transient: an exception carrying the server-side 5xx signal
`"500 Internal Server Error"` is *not* retried on the same credential
with backoff — the very next attempt runs on the next credential at the
same instant. -/
theorem failure_classification_counterexample :
    has429 "500 Internal Server Error" = false ∧
    ((get_response attC6 (fun _ => 0) sC6).2.2.map fun a => (a.key, a.dispatch))
      = [(0, 100), (1, 100)] ∧
    ((get_response attC6 (fun _ => 0) sC6).2.2.map fun a => a.out)
      = [.exn "500 Internal Server Error", .ok "recovered"] ∧
    ¬ ServerErrRetriedSameKey (get_response attC6 (fun _ => 0) sC6).2.2 := by
  decide

/-- **C6 (amended)** Failure classification as implemented: a *rate-limit*
failure (an error whose text contains `"429"` — the only transient class;
5xx-class errors are not retried) keeps the same credential, sleeping the
current backoff before the next try with the seed delay 5 doubling each
retry (5, 10, 20), re-stamping the cooldown clock after every wait, and
giving up the pass after the bounded 3 attempts per key without rotating;
while any other exception abandons the credential immediately, advancing
the rotation, after a single attempt. -/
theorem failure_classification_amended (att : Nat → Outcome)
    (dur : Nat → Nat) (s : ApiState) (m₁ m₂ m₃ : String)
    (h1 : att s.tick = .exn m₁) (h1r : has429 m₁ = true)
    (h2 : att (s.tick + 1) = .exn m₂) (h2r : has429 m₂ = true)
    (h3 : att (s.tick + 2) = .exn m₃) (h3r : has429 m₃ = true) :
    (runRetries att dur s 5 3 =
      (.spent,
       { s with
           now := s.now + dur s.tick + 5 + dur (s.tick + 1) + 10
                    + dur (s.tick + 2) + 20,
           last_call_time := s.now + dur s.tick + 5 + dur (s.tick + 1) + 10
                    + dur (s.tick + 2) + 20,
           tick := s.tick + 3 },
       [⟨s.current_key_index, s.now, .exn m₁⟩,
        ⟨s.current_key_index, s.now + dur s.tick + 5, .exn m₂⟩,
        ⟨s.current_key_index, s.now + dur s.tick + 5 + dur (s.tick + 1) + 10,
          .exn m₃⟩])) ∧
    (∀ s' m, att s'.tick = .exn m → has429 m = false →
      runRetries att dur s' 5 3 =
        (.next,
         { s' with now := s'.now + dur s'.tick, tick := s'.tick + 1,
                   current_key_index :=
                     (s'.current_key_index + 1) % s'.keys.length },
         [⟨s'.current_key_index, s'.now, .exn m⟩])) := by
  constructor
  · simp only [runRetries, h1, h1r, if_true]
    simp only [runRetries, h2, h2r, if_true, add_assoc]
    simp only [runRetries, h3, h3r, if_true, add_assoc]
    norm_num
  · intro s' m hm h4
    have hT : (att s'.tick).Terminal := by
      rw [hm]; exact h4
    have h := runRetries_terminal att dur s' 5 2 hT
    rw [hm] at h
    exact h

/-- Oracle for the C6 witness: every attempt raises a rate-limit error. -/
def attW6 : Nat → Outcome := fun _ => .exn "429"

/-- Witness for the amended C6: three rate-limited attempts on the same
credential at times 0, 5, 15 (waits 5 then 10), ending `spent` with the
cooldown clock re-stamped to 35 (the last wait 20 included) and the
rotation cursor untouched. -/
theorem failure_classification_witness :
    runRetries attW6 (fun _ => 0) sW3 5 3 =
      (.spent,
       { keys := ["a", "b"], current_key_index := 0, cooldown_period := 13,
         last_call_time := 35, now := 35, tick := 3 },
       [⟨0, 0, .exn "429"⟩, ⟨0, 5, .exn "429"⟩, ⟨0, 15, .exn "429"⟩]) :=
  (failure_classification_amended attW6 (fun _ => 0) sW3 "429" "429" "429"
    rfl (by decide) rfl (by decide) rfl (by decide)).1

/-! ## C4 — global cooldown -/

/-- Trace-level reading of "the client sleeps before *every* attempt":
consecutive attempt dispatches are at least `c` apart. -/
abbrev SpacedBy (c : Nat) (tr : List Att) : Prop :=
  ∀ ab ∈ tr.zip tr.tail, ab.1.dispatch + c ≤ ab.2.dispatch

/-- Oracle for the C4 counterexample: the first attempt fails permanently,
the second succeeds. -/
def attC4 : Nat → Outcome := fun i =>
  if i = 0 then .exn "bad key" else .ok "hi"

/-- **C4 (counterexample)** The cooldown block runs only once, at the
start of a request — not before every attempt: after the first credential
fails, the second attempt of the same request is dispatched at the very
same instant, 0 seconds later, although the cooldown period is 13. -/
theorem global_cooldown_counterexample :
    sC6.cooldown_period = 13 ∧
    ((get_response attC4 (fun _ => 0) sC6).2.2.map fun a => a.dispatch)
      = [100, 100] ∧
    ¬ SpacedBy 13 (get_response attC4 (fun _ => 0) sC6).2.2 := by
  decide

/-- Auxiliary: `getLast?` ignores a fresh head when the tail already has a
last element. -/
theorem getLast?_cons_of_some {α : Type} (x : α) (l : List α) (a : α)
    (h : l.getLast? = some a) : (x :: l).getLast? = some a := by
  cases l with
  | nil => simp at h
  | cons y ys => rw [List.getLast?_cons_cons]; exact h

/-- Auxiliary: `getLast?` of an append is the second list's when it has
one. -/
theorem getLast?_append_of_some {α : Type} (l₁ l₂ : List α) (a : α)
    (h : l₂.getLast? = some a) : (l₁ ++ l₂).getLast? = some a := by
  induction l₁ with
  | nil => exact h
  | cons x xs ih => rw [List.cons_append]; exact getLast?_cons_of_some x _ a ih

/-- Invariants through the retry loop: the pool and cooldown period are
untouched, the clock moves only forward, the cooldown stamp moves only
forward, and it never runs ahead of the clock. -/
theorem runRetries_invariants (att : Nat → Outcome) (dur : Nat → Nat) :
    ∀ fuel s w, s.last_call_time ≤ s.now →
      (runRetries att dur s w fuel).2.1.keys = s.keys ∧
      (runRetries att dur s w fuel).2.1.cooldown_period = s.cooldown_period ∧
      s.now ≤ (runRetries att dur s w fuel).2.1.now ∧
      s.last_call_time ≤ (runRetries att dur s w fuel).2.1.last_call_time ∧
      (runRetries att dur s w fuel).2.1.last_call_time
        ≤ (runRetries att dur s w fuel).2.1.now := by
  intro fuel
  induction fuel with
  | zero => intro s w h; exact ⟨rfl, rfl, le_refl _, le_refl _, h⟩
  | succ f ih =>
    intro s w h
    cases ho : att s.tick with
    | ok t =>
      refine ⟨?_, ?_, ?_, ?_, ?_⟩ <;> simp [runRetries, ho]
      omega
    | blocked =>
      refine ⟨?_, ?_, ?_, ?_, ?_⟩ <;> simp [runRetries, ho]
      omega
    | exn m =>
      by_cases h4 : has429 m
      · simp only [runRetries, ho, h4, if_true]
        have h' := ih { s with now := s.now + dur s.tick + w,
                               last_call_time := s.now + dur s.tick + w,
                               tick := s.tick + 1 } (w * 2) (le_refl _)
        obtain ⟨k1, k2, k3, k4, k5⟩ := h'
        dsimp only at k3 k4
        exact ⟨k1, k2, by omega, by omega, k5⟩
      · refine ⟨?_, ?_, ?_, ?_, ?_⟩ <;> simp [runRetries, ho, h4]
        omega

/-- When the retry loop returns `done`, the cooldown stamp equals the
dispatch time of the last (successful) attempt, which is no earlier than
the loop's starting clock — provided the stamp was fresh on entry, as the
key loop guarantees (line 41 of utils.py). -/
theorem runRetries_done_last (att : Nat → Outcome) (dur : Nat → Nat) :
    ∀ fuel s w t, s.last_call_time = s.now →
      (runRetries att dur s w fuel).1 = .done t →
      ∃ a, (runRetries att dur s w fuel).2.2.getLast? = some a ∧
        (runRetries att dur s w fuel).2.1.last_call_time = a.dispatch ∧
        s.now ≤ a.dispatch := by
  intro fuel
  induction fuel with
  | zero => intro s w t hst h; simp [runRetries] at h
  | succ f ih =>
    intro s w t hst h
    cases ho : att s.tick with
    | ok t' =>
      simp only [runRetries, ho] at h ⊢
      exact ⟨⟨s.current_key_index, s.now, .ok t'⟩, by simp, hst, le_refl _⟩
    | blocked => simp [runRetries, ho] at h
    | exn m =>
      by_cases h4 : has429 m
      · simp only [runRetries, ho, h4, if_true] at h ⊢
        obtain ⟨a, ha, hl, hd⟩ := ih _ (w * 2) t rfl h
        refine ⟨a, getLast?_cons_of_some _ _ a ha, hl, ?_⟩
        dsimp only at hd
        omega
      · simp [runRetries, ho, h4] at h

/-- Invariants through the key loop: pool and cooldown period unchanged,
clock forward-only, stamp never ahead of the clock. -/
theorem runKeys_invariants (att : Nat → Outcome) (dur : Nat → Nat) :
    ∀ fuel s, s.last_call_time ≤ s.now →
      (runKeys att dur s fuel).2.1.keys = s.keys ∧
      (runKeys att dur s fuel).2.1.cooldown_period = s.cooldown_period ∧
      s.now ≤ (runKeys att dur s fuel).2.1.now ∧
      (runKeys att dur s fuel).2.1.last_call_time
        ≤ (runKeys att dur s fuel).2.1.now := by
  intro fuel
  induction fuel with
  | zero => intro s h; exact ⟨rfl, rfl, le_refl _, h⟩
  | succ f ih =>
    intro s _
    simp only [runKeys]
    have hrr := runRetries_invariants att dur 3
      { s with last_call_time := s.now } 5 (le_refl _)
    obtain ⟨k1, k2, k3, k4, k5⟩ := hrr
    cases hr1 : (runRetries att dur { s with last_call_time := s.now } 5 3).1 with
    | done t' =>
      simp only
      exact ⟨k1, k2, k3, k5⟩
    | next =>
      simp only
      obtain ⟨j1, j2, j3, j4⟩ :=
        ih (runRetries att dur { s with last_call_time := s.now } 5 3).2.1 k5
      exact ⟨by rw [j1, k1], by rw [j2, k2], le_trans k3 j3, j4⟩
    | spent =>
      simp only
      obtain ⟨j1, j2, j3, j4⟩ :=
        ih (runRetries att dur { s with last_call_time := s.now } 5 3).2.1 k5
      exact ⟨by rw [j1, k1], by rw [j2, k2], le_trans k3 j3, j4⟩

/-- When the key loop succeeds, the cooldown stamp equals the dispatch
time of the successful final attempt, which is no earlier than the loop's
starting clock. -/
theorem runKeys_done_last (att : Nat → Outcome) (dur : Nat → Nat) :
    ∀ fuel s t, (runKeys att dur s fuel).1 = some t →
      ∃ a, (runKeys att dur s fuel).2.2.getLast? = some a ∧
        (runKeys att dur s fuel).2.1.last_call_time = a.dispatch ∧
        s.now ≤ a.dispatch := by
  intro fuel
  induction fuel with
  | zero => intro s t h; simp [runKeys] at h
  | succ f ih =>
    intro s t h
    simp only [runKeys] at h ⊢
    cases hr1 : (runRetries att dur { s with last_call_time := s.now } 5 3).1 with
    | done t' =>
      rw [hr1] at h
      simp only at h ⊢
      exact runRetries_done_last att dur 3 _ 5 t' rfl hr1
    | next =>
      rw [hr1] at h
      simp only at h ⊢
      obtain ⟨a, ha, hl, hd⟩ := ih _ t h
      refine ⟨a, getLast?_append_of_some _ _ a ha, hl, ?_⟩
      have hinv := (runRetries_invariants att dur 3
        { s with last_call_time := s.now } 5 (le_refl _)).2.2.1
      exact le_trans hinv hd
    | spent =>
      rw [hr1] at h
      simp only at h ⊢
      obtain ⟨a, ha, hl, hd⟩ := ih _ t h
      refine ⟨a, getLast?_append_of_some _ _ a ha, hl, ?_⟩
      have hinv := (runRetries_invariants att dur 3
        { s with last_call_time := s.now } 5 (le_refl _)).2.2.1
      exact le_trans hinv hd

/-- On a successful call the cooldown stamp ends equal to the dispatch of
the successful final attempt, and that dispatch lies at least one
cooldown period after the stamp the call started from. -/
theorem get_response_success_stamp (att : Nat → Outcome) (dur : Nat → Nat)
    (s : ApiState) (t : String) (hls : s.last_call_time ≤ s.now)
    (h : (get_response att dur s).1 = some t) :
    ∃ a, (get_response att dur s).2.2.getLast? = some a ∧
      (get_response att dur s).2.1.last_call_time = a.dispatch ∧
      s.last_call_time + s.cooldown_period ≤ a.dispatch ∧
      (get_response att dur s).2.1.last_call_time
        ≤ (get_response att dur s).2.1.now ∧
      (get_response att dur s).2.1.cooldown_period = s.cooldown_period := by
  obtain ⟨s0, heq, hk, hi, hl, hc, ht, hn, hboost⟩ :=
    get_response_as_runKeys att dur s
  rw [heq] at h ⊢
  obtain ⟨a, ha, hlast, hdisp⟩ := runKeys_done_last att dur s.keys.length s0 t h
  have hls0 : s0.last_call_time ≤ s0.now := by
    rw [hl]; exact le_trans hls hn
  obtain ⟨j1, j2, j3, j4⟩ := runKeys_invariants att dur s.keys.length s0 hls0
  refine ⟨a, ha, hlast, ?_, j4, by rw [j2, hc]⟩
  have := hboost hls
  omega

/-- **C4 (amended)** Global cooldown as implemented: the cooldown check
runs once per call (before the first attempt only — see the
counterexample), but because the clock is stamped at each key pass and
re-stamped after each backoff wait, any two consecutive successful calls
still dispatch their successful attempts at least one cooldown period
apart, for every pool size. -/
theorem global_cooldown_amended (att : Nat → Outcome) (dur : Nat → Nat)
    (s1 : ApiState) (t₁ t₂ : String)
    (hls : s1.last_call_time ≤ s1.now)
    (h1 : (get_response att dur s1).1 = some t₁)
    (h2 : (get_response att dur (get_response att dur s1).2.1).1 = some t₂) :
    ∃ a₁ a₂,
      (get_response att dur s1).2.2.getLast? = some a₁ ∧
      (get_response att dur (get_response att dur s1).2.1).2.2.getLast?
        = some a₂ ∧
      a₁.dispatch + s1.cooldown_period ≤ a₂.dispatch := by
  obtain ⟨a₁, ha₁, hl₁, hb₁, hle₁, hc₁⟩ :=
    get_response_success_stamp att dur s1 t₁ hls h1
  obtain ⟨a₂, ha₂, hl₂, hb₂, hle₂, hc₂⟩ :=
    get_response_success_stamp att dur (get_response att dur s1).2.1 t₂ hle₁ h2
  refine ⟨a₁, a₂, ha₁, ha₂, ?_⟩
  rw [hl₁, hc₁] at hb₂
  omega

/-- Oracle for the C4 witness: every attempt succeeds immediately. -/
def attW4 : Nat → Outcome := fun _ => .ok "pong"

/-- Client state for the C4 witness: one credential, cooldown 13, fresh
clock. -/
def sW4 : ApiState :=
  { keys := ["only"], current_key_index := 0, cooldown_period := 13,
    last_call_time := 0, now := 0, tick := 0 }

/-- Witness for the amended C4: two back-to-back successful calls on a
one-credential pool dispatch at times 13 and 26 — exactly one cooldown
period apart. -/
theorem global_cooldown_witness :
    ∃ a₁ a₂,
      (get_response attW4 (fun _ => 0) sW4).2.2.getLast? = some a₁ ∧
      (get_response attW4 (fun _ => 0)
        (get_response attW4 (fun _ => 0) sW4).2.1).2.2.getLast? = some a₂ ∧
      a₁.dispatch + sW4.cooldown_period ≤ a₂.dispatch :=
  global_cooldown_amended attW4 (fun _ => 0) sW4 "pong" "pong"
    (by decide) (by decide) (by decide)

/-! ## Pipeline lemmas (C1, C2, C5) -/

/-- API-call count of a page depends only on what was observed on it:
pages below the text threshold make no call, every other page makes
exactly one. -/
def pageCalls : PageResult → Nat
  | .noText => 0
  | .noResponse => 1
  | .noBrackets => 1
  | .decodeError => 1
  | .questions _ => 1

/-- The `.2` of `processPage` is state-independent. -/
theorem processPage_calls (f : String) (p : Nat) (db : DB) (r : PageResult) :
    (processPage f p db r).2 = pageCalls r := by
  cases r <;> rfl

/-- Rows inserted for one page: the parent-table suffix is exactly one
row per decoded question, carrying the document name and page number. -/
theorem foldl_insertQ_jee (f : String) (p : Nat) :
    ∀ (qs : List QData) (db : DB),
      (qs.foldl (insertQ f p) db).jee
        = db.jee ++ qs.map (fun q => ⟨q.original, f, p⟩) := by
  intro qs
  induction qs with
  | nil => intro db; simp
  | cons q qs ih =>
    intro db
    rw [List.foldl_cons, ih]
    simp [insertQ]

/-- The variant table only grows. -/
theorem foldl_insertQ_gen (f : String) (p : Nat) :
    ∀ (qs : List QData) (db : DB),
      ∃ t, (qs.foldl (insertQ f p) db).gen = db.gen ++ t := by
  intro qs
  induction qs with
  | nil => intro db; exact ⟨[], by simp⟩
  | cons q qs ih =>
    intro db
    obtain ⟨t, ht⟩ := ih (insertQ f p db q)
    refine ⟨(⟨(db.jee ++ [(⟨q.original, f, p⟩ : ParentRow)]).length,
        q.transformed⟩ : VariantRow) :: t, ?_⟩
    rw [List.foldl_cons, ht]
    simp [insertQ]

/-- One page step only appends to the parent table. -/
theorem pageStep_jee (f : String) (doc : Nat → PageResult) (db : DB)
    (p : Nat) : ∃ t, (pageStep f doc db p).jee = db.jee ++ t := by
  unfold pageStep
  cases h : doc p with
  | questions qs =>
    by_cases he : qs.isEmpty
    · exact ⟨[], by simp [processPage, he]⟩
    · exact ⟨qs.map (fun q => ⟨q.original, f, p⟩),
        by simp [processPage, he, foldl_insertQ_jee]⟩
  | noText => exact ⟨[], by simp [processPage]⟩
  | noResponse => exact ⟨[], by simp [processPage]⟩
  | noBrackets => exact ⟨[], by simp [processPage]⟩
  | decodeError => exact ⟨[], by simp [processPage]⟩

/-- One page step only appends to the variant table. -/
theorem pageStep_gen (f : String) (doc : Nat → PageResult) (db : DB)
    (p : Nat) : ∃ t, (pageStep f doc db p).gen = db.gen ++ t := by
  unfold pageStep
  cases h : doc p with
  | questions qs =>
    by_cases he : qs.isEmpty
    · exact ⟨[], by simp [processPage, he]⟩
    · obtain ⟨t, ht⟩ := foldl_insertQ_gen f p qs db
      exact ⟨t, by simp [processPage, he, ht]⟩
  | noText => exact ⟨[], by simp [processPage]⟩
  | noResponse => exact ⟨[], by simp [processPage]⟩
  | noBrackets => exact ⟨[], by simp [processPage]⟩
  | decodeError => exact ⟨[], by simp [processPage]⟩

/-- A whole run only appends to the parent table. -/
theorem foldPages_jee (f : String) (doc : Nat → PageResult) :
    ∀ (ps : List Nat) (db : DB),
      ∃ t, (ps.foldl (pageStep f doc) db).jee = db.jee ++ t := by
  intro ps
  induction ps with
  | nil => intro db; exact ⟨[], by simp⟩
  | cons p ps ih =>
    intro db
    obtain ⟨t₁, h₁⟩ := pageStep_jee f doc db p
    obtain ⟨t₂, h₂⟩ := ih (pageStep f doc db p)
    exact ⟨t₁ ++ t₂, by rw [List.foldl_cons, h₂, h₁, List.append_assoc]⟩

/-- A whole run only appends to the variant table. -/
theorem foldPages_gen (f : String) (doc : Nat → PageResult) :
    ∀ (ps : List Nat) (db : DB),
      ∃ t, (ps.foldl (pageStep f doc) db).gen = db.gen ++ t := by
  intro ps
  induction ps with
  | nil => intro db; exact ⟨[], by simp⟩
  | cons p ps ih =>
    intro db
    obtain ⟨t₁, h₁⟩ := pageStep_gen f doc db p
    obtain ⟨t₂, h₂⟩ := ih (pageStep f doc db p)
    exact ⟨t₁ ++ t₂, by rw [List.foldl_cons, h₂, h₁, List.append_assoc]⟩

/-- The run is the page fold on the database paired with the sum of the
per-page call counts. -/
theorem run_pipeline_spec (db : DB) (f : String) (doc : Nat → PageResult)
    (n : Nat) :
    run_generation_pipeline db f doc n
      = ((pagesToProcess db f n).foldl (pageStep f doc) db,
         ((pagesToProcess db f n).map (fun p => pageCalls (doc p))).sum) := by
  unfold run_generation_pipeline
  have main : ∀ (ps : List Nat) (db : DB) (c0 : Nat),
      ps.foldl (fun acc p =>
          let r := processPage f p acc.1 (doc p)
          (r.1, acc.2 + r.2)) (db, c0)
        = (ps.foldl (pageStep f doc) db,
           c0 + (ps.map (fun p => pageCalls (doc p))).sum) := by
    intro ps
    induction ps with
    | nil => intro db c0; simp
    | cons p ps ih =>
      intro db c0
      rw [List.foldl_cons, List.foldl_cons, ih]
      simp [pageStep, processPage_calls, Nat.add_assoc]
  rw [main]
  simp

/-- A max-fold over pages dominates its starting accumulator. -/
theorem foldl_max_init (l : List ParentRow) :
    ∀ a, a ≤ l.foldl (fun m x => max m x.source_page) a := by
  induction l with
  | nil => intro a; exact le_refl a
  | cons x xs ih =>
    intro a
    exact le_trans (le_max_left a x.source_page) (ih _)

/-- A max-fold over pages dominates every member's page. -/
theorem le_foldl_max :
    ∀ (l : List ParentRow) (a : Nat) (r : ParentRow), r ∈ l →
      r.source_page ≤ l.foldl (fun m x => max m x.source_page) a := by
  intro l
  induction l with
  | nil => intro a r h; cases h
  | cons x xs ih =>
    intro a r h
    rw [List.foldl_cons]
    rcases List.mem_cons.1 h with rfl | h2
    · exact le_trans (le_max_right a r.source_page) (foldl_max_init xs _)
    · exact ih _ r h2

/-- Every recorded row for a document is at or below the document's
resume point `MAX(source_page)`. -/
theorem mem_le_maxSourcePage (db : DB) (f : String) (r : ParentRow)
    (hr : r ∈ db.jee) (hf : r.source_file = f) :
    r.source_page ≤ maxSourcePage db f := by
  unfold maxSourcePage
  apply le_foldl_max
  rw [List.mem_filter]
  exact ⟨hr, by simp [hf]⟩

/-- The pages a run visits are exactly those strictly beyond the resume
point and within the document. -/
theorem mem_pagesToProcess (db : DB) (f : String) (n p : Nat) :
    p ∈ pagesToProcess db f n ↔ maxSourcePage db f < p ∧ p ≤ n := by
  unfold pagesToProcess
  by_cases h : n ≤ maxSourcePage db f
  · simp only [h, if_true, List.not_mem_nil, false_iff]
    omega
  · simp only [h, if_false, List.mem_range']
    constructor
    · rintro ⟨i, hi, rfl⟩
      omega
    · intro hp
      exact ⟨p - (maxSourcePage db f + 1), by omega, by omega⟩

/-- A page whose observation decodes to a non-empty question list leaves
a parent row tagged with that document and page in the final database of
any fold that visits it. -/
theorem foldPages_mem_of_inserting (f : String) (doc : Nat → PageResult) :
    ∀ (ps : List Nat) (db : DB) (p : Nat) (qs : List QData),
      p ∈ ps → doc p = .questions qs → qs ≠ [] →
      ∃ r ∈ (ps.foldl (pageStep f doc) db).jee,
        r.source_file = f ∧ r.source_page = p := by
  intro ps
  induction ps with
  | nil => intro db p qs hp; cases hp
  | cons p' ps ih =>
    intro db p qs hp hdoc hne
    rw [List.foldl_cons]
    rcases List.mem_cons.1 hp with rfl | hp2
    · -- the head page inserts; the rest of the fold only appends
      have hrow : ∃ r ∈ (pageStep f doc db p).jee,
          r.source_file = f ∧ r.source_page = p := by
        unfold pageStep processPage
        rw [hdoc]
        cases qs with
        | nil => exact absurd rfl hne
        | cons q qs' =>
          simp only [List.isEmpty_cons, if_false, Bool.false_eq_true,
            foldl_insertQ_jee]
          exact ⟨⟨q.original, f, p⟩,
            List.mem_append_right _ (List.mem_cons_self _ _), rfl, rfl⟩
      obtain ⟨r, hr, hrf, hrp⟩ := hrow
      obtain ⟨t, ht⟩ := foldPages_jee f doc ps (pageStep f doc db p)
      exact ⟨r, by rw [ht]; exact List.mem_append_left _ hr, hrf, hrp⟩
    · exact ih _ p qs hp2 hdoc hne

/-- A page whose observation inserts nothing leaves the database
untouched. -/
theorem processPage_noninserting (f : String) (p : Nat) (db : DB)
    (r : PageResult) (h : ∀ qs, r = .questions qs → qs = []) :
    (processPage f p db r).1 = db := by
  cases r with
  | questions qs =>
    have := h qs rfl
    subst this
    rfl
  | noText => rfl
  | noResponse => rfl
  | noBrackets => rfl
  | decodeError => rfl

/-- A fold over pages none of which inserts leaves the database
untouched. -/
theorem foldPages_noninserting (f : String) (doc : Nat → PageResult) :
    ∀ (ps : List Nat) (db : DB),
      (∀ p ∈ ps, ∀ qs, doc p = .questions qs → qs = []) →
      ps.foldl (pageStep f doc) db = db := by
  intro ps
  induction ps with
  | nil => intro db _; rfl
  | cons p ps ih =>
    intro db h
    rw [List.foldl_cons]
    have h1 : pageStep f doc db p = db :=
      processPage_noninserting f p db (doc p) (h p (List.mem_cons_self _ _))
    rw [h1]
    exact ih db (fun q hq => h q (List.mem_cons_of_mem _ hq))

/-- A page call count is zero exactly for below-threshold pages. -/
theorem pageCalls_eq_zero (r : PageResult) : pageCalls r = 0 ↔ r = .noText := by
  cases r <;> simp [pageCalls]

/-- After a completed run from an empty store, no page beyond the resume
point can decode to a non-empty question list: if it did, its rows would
be in the store and the resume point would cover it. -/
theorem second_run_noninserting (f : String) (doc : Nat → PageResult)
    (n : Nat) :
    ∀ p ∈ pagesToProcess (run_generation_pipeline ⟨[], []⟩ f doc n).1 f n,
      ∀ qs, doc p = .questions qs → qs = [] := by
  intro p hp qs hdoc
  by_contra hne
  obtain ⟨hgt, hle⟩ :=
    (mem_pagesToProcess (run_generation_pipeline ⟨[], []⟩ f doc n).1 f n p).1 hp
  have hmax0 : maxSourcePage ⟨[], []⟩ f = 0 := rfl
  have hp0 : p ∈ pagesToProcess ⟨[], []⟩ f n := by
    rw [mem_pagesToProcess, hmax0]
    omega
  have hdb1 : (run_generation_pipeline ⟨[], []⟩ f doc n).1
      = (pagesToProcess ⟨[], []⟩ f n).foldl (pageStep f doc) ⟨[], []⟩ := by
    rw [run_pipeline_spec]
  obtain ⟨r, hr, hrf, hrp⟩ := foldPages_mem_of_inserting f doc
    (pagesToProcess ⟨[], []⟩ f n) ⟨[], []⟩ p qs hp0 hdoc hne
  rw [← hdb1] at hr
  have := mem_le_maxSourcePage (run_generation_pipeline ⟨[], []⟩ f doc n).1
    f r hr hrf
  omega

/-- **C1 (amended)** Idempotent resume as implemented: with the document
and responses modelled deterministically, a second run after a completed
first run from an empty store inserts no additional parent or variant
rows, but it performs one API call for each page beyond the resume point
`MAX(source_page)` that clears the text threshold; its API-call count is
zero exactly when every page beyond the resume point is below the text
threshold (in particular when the resume point reaches the page count,
since then no page is revisited). -/
theorem idempotent_resume_amended (f : String) (doc : Nat → PageResult)
    (n : Nat) :
    let db1 := (run_generation_pipeline ⟨[], []⟩ f doc n).1
    let second := run_generation_pipeline db1 f doc n
    second.1 = db1 ∧
    second.2 = ((pagesToProcess db1 f n).map (fun p => pageCalls (doc p))).sum ∧
    (second.2 = 0 ↔ ∀ p ∈ pagesToProcess db1 f n, doc p = .noText) := by
  intro db1 second
  have hspec := run_pipeline_spec db1 f doc n
  have h1 : second.1 = db1 := by
    show (run_generation_pipeline db1 f doc n).1 = db1
    rw [hspec]
    exact foldPages_noninserting f doc (pagesToProcess db1 f n) db1
      (second_run_noninserting f doc n)
  have h2 : second.2
      = ((pagesToProcess db1 f n).map (fun p => pageCalls (doc p))).sum := by
    show (run_generation_pipeline db1 f doc n).2 = _
    rw [hspec]
  refine ⟨h1, h2, ?_⟩
  rw [h2, List.sum_eq_zero_iff]
  constructor
  · intro h p hp
    have := h (pageCalls (doc p)) (List.mem_map_of_mem _ hp)
    exact (pageCalls_eq_zero (doc p)).1 this
  · intro h x hx
    obtain ⟨p, hp, rfl⟩ := List.mem_map.1 hx
    exact (pageCalls_eq_zero (doc p)).2 (h p hp)

/-- Document for the C1 counterexample: page 1 decodes to one question,
page 2 has text but decodes to the empty list, on every run. -/
def docC1 : Nat → PageResult := fun p =>
  if p = 1 then .questions [⟨"q1", "v1"⟩] else .questions []

/-- **C1 (counterexample)** On a two-page document whose second page
yields no questions, the first run completes with `MAX(source_page) = 1`,
so the second run revisits page 2 and performs 1 API call — not the 0 the
claim requires. -/
theorem idempotent_resume_counterexample :
    (run_generation_pipeline ⟨[], []⟩ "doc.pdf" docC1 2).2 = 2 ∧
    (run_generation_pipeline (run_generation_pipeline ⟨[], []⟩ "doc.pdf" docC1 2).1
      "doc.pdf" docC1 2).2 = 1 ∧
    ¬ ((run_generation_pipeline
        (run_generation_pipeline ⟨[], []⟩ "doc.pdf" docC1 2).1
        "doc.pdf" docC1 2).2 = 0) := by
  decide

/-- **C2 (amended)** Resume ledger as implemented: the pipeline keeps no
dedicated checkpoint table — resumability derives from the question rows
themselves. What holds is: a run never updates or removes existing rows
(both tables only grow), and a page with any recorded row is never
revisited by a later run, because it lies at or below `MAX(source_page)`.
At-most-one-record-per-page fails: a page stores one row per decoded
question (and failed or empty pages store none at all). -/
theorem checkpoint_ledger_amended (db : DB) (f : String)
    (doc : Nat → PageResult) (n : Nat) :
    (∃ t₁ t₂, (run_generation_pipeline db f doc n).1.jee = db.jee ++ t₁ ∧
              (run_generation_pipeline db f doc n).1.gen = db.gen ++ t₂) ∧
    (∀ r ∈ db.jee, r.source_file = f →
      r.source_page ∉ pagesToProcess db f n) := by
  constructor
  · rw [run_pipeline_spec]
    obtain ⟨t₁, h₁⟩ := foldPages_jee f doc (pagesToProcess db f n) db
    obtain ⟨t₂, h₂⟩ := foldPages_gen f doc (pagesToProcess db f n) db
    exact ⟨t₁, t₂, h₁, h₂⟩
  · intro r hr hf hmem
    have h1 := mem_le_maxSourcePage db f r hr hf
    have h2 := (mem_pagesToProcess db f n r.source_page).1 hmem
    omega

/-- Document for the C2 counterexample: its single page decodes to two
questions. -/
def docC2 : Nat → PageResult := fun _ =>
  .questions [⟨"qa", "va"⟩, ⟨"qb", "vb"⟩]

/-- **C2 (counterexample)** One run over a one-page document with two
decoded questions leaves two rows keyed (document, page 1) — the
per-(document, page) record is not unique, so the at-most-one-checkpoint
invariant fails on the store the code actually keeps. -/
theorem checkpoint_ledger_counterexample :
    ((run_generation_pipeline ⟨[], []⟩ "doc.pdf" docC2 1).1.jee.filter
      (fun r => r.source_file == "doc.pdf" && r.source_page == 1)).length
      = 2 ∧
    ¬ (((run_generation_pipeline ⟨[], []⟩ "doc.pdf" docC2 1).1.jee.filter
      (fun r => r.source_file == "doc.pdf" && r.source_page == 1)).length
      ≤ 1) := by
  decide

/-! ## C5 — atomic per-page commit -/

/-- The insert pairs of a page contain no `commit`. -/
theorem commit_not_mem_pairs (f : String) (p : Nat) (qs : List QData) :
    Op.commit ∉ qs.flatMap
      (fun q => [Op.insP ⟨q.original, f, p⟩, Op.insV q.transformed]) := by
  intro h
  obtain ⟨q, -, hq⟩ := List.mem_flatMap.1 h
  simp at hq

/-- Folding commit-free operations never changes the durable view. -/
theorem foldl_applyOp_no_commit :
    ∀ (ops : List Op) (ts : TxState), (∀ o ∈ ops, o ≠ .commit) →
      (ops.foldl applyOp ts).committed = ts.committed := by
  intro ops
  induction ops with
  | nil => intro ts _; rfl
  | cons o os ih =>
    intro ts h
    rw [List.foldl_cons]
    rw [ih (applyOp ts o) (fun x hx => h x (List.mem_cons_of_mem _ hx))]
    cases o with
    | insP r => rfl
    | insV t => rfl
    | commit => exact absurd rfl (h _ (List.mem_cons_self _ _))

/-- Replaying the insert pairs of a page builds, in the pending view,
exactly the rows the page loop inserts through `cursor.lastrowid`. -/
theorem foldl_applyOp_pairs (f : String) (p : Nat) :
    ∀ (qs : List QData) (c d : DB),
      (qs.flatMap
          (fun q => [Op.insP ⟨q.original, f, p⟩, Op.insV q.transformed])).foldl
        applyOp ⟨c, d⟩
      = ⟨c, qs.foldl (insertQ f p) d⟩ := by
  intro qs
  induction qs with
  | nil => intro c d; rfl
  | cons q qs ih =>
    intro c d
    rw [List.flatMap_cons, List.foldl_append, ih]
    rfl

/-- Replaying all operations of one page from a clean transaction state
commits exactly that page's effect. -/
theorem foldl_applyOp_page (f : String) (p : Nat) (r : PageResult) (d : DB) :
    (opsOfPage f p r).foldl applyOp ⟨d, d⟩
      = ⟨(processPage f p d r).1, (processPage f p d r).1⟩ := by
  cases r with
  | questions qs =>
    cases hqs : qs.isEmpty with
    | true =>
      have : qs = [] := List.isEmpty_iff.1 hqs
      subst this
      rfl
    | false =>
      simp only [opsOfPage, processPage, hqs, Bool.false_eq_true, if_false]
      rw [List.foldl_append, foldl_applyOp_pairs]
      rfl
  | noText => rfl
  | noResponse => rfl
  | noBrackets => rfl
  | decodeError => rfl

/-- Killing the process inside one page's operations leaves the durable
view untouched: the page's `commit` is its last operation. -/
theorem foldl_applyOp_page_partial (f : String) (p : Nat) (r : PageResult)
    (d : DB) (k : Nat) (hk : k < (opsOfPage f p r).length) :
    (((opsOfPage f p r).take k).foldl applyOp ⟨d, d⟩).committed = d := by
  cases r with
  | questions qs =>
    cases hqs : qs.isEmpty with
    | true =>
      have : qs = [] := List.isEmpty_iff.1 hqs
      subst this
      simp [opsOfPage] at hk
    | false =>
      simp only [opsOfPage, hqs, Bool.false_eq_true, if_false] at hk ⊢
      rw [List.length_append, List.length_singleton] at hk
      have hle : k ≤ (qs.flatMap (fun q =>
          [Op.insP ⟨q.original, f, p⟩, Op.insV q.transformed])).length := by
        omega
      rw [List.take_append_eq_append_take, Nat.sub_eq_zero_of_le hle,
        List.take_zero, List.append_nil]
      apply foldl_applyOp_no_commit
      intro o ho hoc
      subst hoc
      exact commit_not_mem_pairs f p qs (List.mem_of_mem_take ho)
  | noText => simp [opsOfPage] at hk
  | noResponse => simp [opsOfPage] at hk
  | noBrackets => simp [opsOfPage] at hk
  | decodeError => simp [opsOfPage] at hk

/-- Any kill point inside a run exposes the durable state of a whole
number of leading pages — never a partially visible page. -/
theorem crash_is_page_boundary (f : String) (doc : Nat → PageResult) :
    ∀ (ps : List Nat) (d : DB) (k : Nat),
      ∃ j, (((ps.flatMap (fun p => opsOfPage f p (doc p))).take k).foldl
          applyOp ⟨d, d⟩).committed
        = ((ps.take j).foldl (pageStep f doc) d) := by
  intro ps
  induction ps with
  | nil => intro d k; exact ⟨0, by simp⟩
  | cons p ps ih =>
    intro d k
    rw [List.flatMap_cons]
    by_cases hk : k < (opsOfPage f p (doc p)).length
    · refine ⟨0, ?_⟩
      rw [List.take_append_eq_append_take,
        Nat.sub_eq_zero_of_le (le_of_lt hk), List.take_zero, List.append_nil]
      simpa using foldl_applyOp_page_partial f p (doc p) d k hk
    · push_neg at hk
      obtain ⟨j, hj⟩ := ih (pageStep f doc d p) (k - (opsOfPage f p (doc p)).length)
      refine ⟨j + 1, ?_⟩
      rw [List.take_append_eq_append_take,
        List.take_of_length_le hk, List.foldl_append, foldl_applyOp_page]
      rw [List.take_succ_cons, List.foldl_cons]
      exact hj


/-- Replaying every operation of a run reproduces the run's database. -/
theorem replay_full (f : String) (doc : Nat → PageResult) :
    ∀ (ps : List Nat) (d : DB),
      (ps.flatMap (fun p => opsOfPage f p (doc p))).foldl applyOp ⟨d, d⟩
        = ⟨ps.foldl (pageStep f doc) d, ps.foldl (pageStep f doc) d⟩ := by
  intro ps
  induction ps with
  | nil => intro d; rfl
  | cons p ps ih =>
    intro d
    rw [List.flatMap_cons, List.foldl_append, foldl_applyOp_page,
      List.foldl_cons]
    exact ih (pageStep f doc d p)

/-- **C5 (amended)** Atomic per-page commit as implemented: all inserts
of a page become durable in one `conn.commit()`, so killing the process
after any number of operations exposes the state of a whole number of
leading pages — a page killed between its first insert and its commit
leaves no visible rows (and the full replay is exactly the run's result).
There is no completion record: the page's own rows are the marker, so the
restart reprocesses the killed page together with *every* page beyond the
new `MAX(source_page)` — not exactly the killed page alone (see the
counterexample). -/
theorem atomic_per_page_commit_amended (db : DB) (f : String)
    (doc : Nat → PageResult) (n : Nat) :
    (∀ k, ∃ j, crashView db (opsOfRun db f doc n) k
        = ((pagesToProcess db f n).take j).foldl (pageStep f doc) db) ∧
    crashView db (opsOfRun db f doc n) (opsOfRun db f doc n).length
      = (run_generation_pipeline db f doc n).1 := by
  constructor
  · intro k
    exact crash_is_page_boundary f doc (pagesToProcess db f n) db k
  · unfold crashView opsOfRun
    rw [List.take_length, replay_full, run_pipeline_spec]

/-- Document for the C5 counterexample: page 1 inserts one question,
page 2 gets no API response, page 3 inserts one question. -/
def docC5 : Nat → PageResult := fun p =>
  if p = 1 then .questions [⟨"q1", "v1"⟩]
  else if p = 2 then .noResponse
  else .questions [⟨"q3", "v3"⟩]

/-- **C5 (counterexample)** Killing the run 4 operations in — after page
3's parent insert, before its commit — leaves only page 1's row visible
(atomicity holds, no orphan rows), but the restart reprocesses pages
2 *and* 3, not exactly the killed page 3 as the claim states. -/
theorem atomic_commit_counterexample :
    (crashView ⟨[], []⟩ (opsOfRun ⟨[], []⟩ "doc.pdf" docC5 3) 4).jee.length
      = 1 ∧
    (∀ r ∈ (crashView ⟨[], []⟩ (opsOfRun ⟨[], []⟩ "doc.pdf" docC5 3) 4).jee,
      r.source_page ≠ 3) ∧
    pagesToProcess (crashView ⟨[], []⟩ (opsOfRun ⟨[], []⟩ "doc.pdf" docC5 3) 4)
      "doc.pdf" 3 = [2, 3] ∧
    ([2, 3] : List Nat) ≠ [3] := by
  decide
